import Mathlib

/-!
Verification of the ecolab-com scraper (src/main.go, final version of the file).

The development shallowly embeds the Go functions that the specification
describes.  Pure string manipulation is translated function by function;
filesystem and network effects are made explicit (the filesystem is a list of
existing paths, the network is an oracle recording how many fetches were
issued); the goroutine pool of scrapeContentAndSaveToFile is given as a small
step relation over per-task phases.  Go byte strings are modelled as Lean
strings processed through their character lists; the ASCII fragment of
strings.ToLower is used, which is exact on every input considered here.
-/

namespace EcolabScraper

/-! ### Dedup filter: removeDuplicatesFromSlice

The Go loop keeps a membership set (the map named check) and an output slice;
an element is appended exactly when it is not yet in the set, and is then
added to the set.  The set is modelled by the list of elements seen so far,
consulted only through membership. -/

/-- Loop of removeDuplicatesFromSlice: walk the slice, skipping any element
already recorded in the seen set, and record each kept element. -/
def dedupLoop : List String → List String → List String
  | [], _ => []
  | x :: xs, seen => if x ∈ seen then dedupLoop xs seen else x :: dedupLoop xs (x :: seen)

/-- Go removeDuplicatesFromSlice: first-occurrence deduplication with an
initially empty seen set. -/
def removeDuplicatesFromSlice (slice : List String) : List String :=
  dedupLoop slice []

theorem mem_dedupLoop (x : String) (xs : List String) :
    ∀ seen, x ∈ dedupLoop xs seen ↔ (x ∈ xs ∧ x ∉ seen) := by
  induction xs with
  | nil => intro seen; simp [dedupLoop]
  | cons y ys ih =>
    intro seen
    by_cases hy : y ∈ seen
    · simp only [dedupLoop, if_pos hy, ih, List.mem_cons]
      constructor
      · exact fun h => ⟨Or.inr h.1, h.2⟩
      · rintro ⟨rfl | h, hns⟩
        · exact absurd hy hns
        · exact ⟨h, hns⟩
    · simp only [dedupLoop, if_neg hy, List.mem_cons, ih, List.mem_cons]
      by_cases hxy : x = y
      · subst hxy; simp [hy]
      · simp [hxy]

theorem dedupLoop_not_mem_seen (xs : List String) :
    ∀ seen, ∀ a ∈ dedupLoop xs seen, a ∉ seen := by
  intro seen a ha
  exact ((mem_dedupLoop a xs seen).mp ha).2

theorem dedupLoop_nodup (xs : List String) : ∀ seen, (dedupLoop xs seen).Nodup := by
  induction xs with
  | nil => intro seen; simp [dedupLoop]
  | cons y ys ih =>
    intro seen
    by_cases hy : y ∈ seen
    · simpa [dedupLoop, hy] using ih seen
    · rw [dedupLoop, if_neg hy]
      refine List.nodup_cons.mpr ⟨?_, ih (y :: seen)⟩
      intro hmem
      exact dedupLoop_not_mem_seen ys (y :: seen) y hmem (List.mem_cons_self y seen)

theorem dedupLoop_sublist (xs : List String) : ∀ seen, (dedupLoop xs seen).Sublist xs := by
  induction xs with
  | nil => intro seen; simp [dedupLoop]
  | cons y ys ih =>
    intro seen
    by_cases hy : y ∈ seen
    · rw [dedupLoop, if_pos hy]
      exact (ih seen).cons y
    · rw [dedupLoop, if_neg hy]
      exact (ih (y :: seen)).cons₂ y

theorem dedupLoop_eq_self (xs : List String) :
    ∀ seen, xs.Nodup → (∀ a ∈ xs, a ∉ seen) → dedupLoop xs seen = xs := by
  induction xs with
  | nil => intro seen _ _; rfl
  | cons y ys ih =>
    intro seen hnd hdisj
    have hy : y ∉ seen := hdisj y (List.mem_cons_self y ys)
    rw [dedupLoop, if_neg hy]
    congr 1
    refine ih (y :: seen) (List.nodup_cons.mp hnd).2 ?_
    intro a ha hmem
    rcases List.mem_cons.mp hmem with rfl | h
    · exact (List.nodup_cons.mp hnd).1 ha
    · exact hdisj a (List.mem_cons_of_mem y ha) h

theorem dedupLoop_congr (xs : List String) :
    ∀ s t, (∀ a, a ∈ s ↔ a ∈ t) → dedupLoop xs s = dedupLoop xs t := by
  induction xs with
  | nil => intro s t _; rfl
  | cons y ys ih =>
    intro s t hst
    by_cases hy : y ∈ s
    · rw [dedupLoop, if_pos hy, dedupLoop, if_pos ((hst y).mp hy)]
      exact ih s t hst
    · rw [dedupLoop, if_neg hy, dedupLoop, if_neg (fun h => hy ((hst y).mpr h))]
      congr 1
      refine ih (y :: s) (y :: t) ?_
      intro a
      simp [List.mem_cons, hst a]

theorem dedupLoop_cons_seen (xs : List String) :
    ∀ seen y, dedupLoop xs (y :: seen) = dedupLoop (xs.filter (· != y)) seen := by
  induction xs with
  | nil => intro seen y; rfl
  | cons x xs ih =>
    intro seen y
    by_cases hxy : x = y
    · subst hxy
      have hfil : (x :: xs).filter (· != x) = xs.filter (· != x) := by
        simp [List.filter_cons]
      rw [hfil, dedupLoop, if_pos (List.mem_cons_self x seen)]
      exact ih seen x
    · have hfil : (x :: xs).filter (· != y) = x :: xs.filter (· != y) := by
        simp [List.filter_cons, hxy]
      rw [hfil]
      by_cases hx : x ∈ seen
      · rw [dedupLoop, if_pos (List.mem_cons_of_mem y hx), dedupLoop, if_pos hx]
        exact ih seen y
      · have hx2 : x ∉ y :: seen := by
          intro h
          rcases List.mem_cons.mp h with h1 | h2
          · exact hxy h1
          · exact hx h2
        rw [dedupLoop, if_neg hx2, dedupLoop, if_neg hx]
        congr 1
        have step1 : dedupLoop xs (x :: y :: seen) = dedupLoop xs (y :: x :: seen) := by
          refine dedupLoop_congr xs _ _ ?_
          intro a
          constructor <;> intro h <;> simp only [List.mem_cons] at h ⊢ <;> tauto
        rw [step1, ih (x :: seen) y]

theorem removeDuplicates_mem (x : String) (xs : List String) :
    x ∈ removeDuplicatesFromSlice xs ↔ x ∈ xs := by
  rw [removeDuplicatesFromSlice, mem_dedupLoop]
  simp

theorem removeDuplicates_nodup (xs : List String) : (removeDuplicatesFromSlice xs).Nodup :=
  dedupLoop_nodup xs []

theorem removeDuplicates_sublist (xs : List String) :
    (removeDuplicatesFromSlice xs).Sublist xs :=
  dedupLoop_sublist xs []

theorem removeDuplicates_idem (xs : List String) :
    removeDuplicatesFromSlice (removeDuplicatesFromSlice xs) = removeDuplicatesFromSlice xs := by
  refine dedupLoop_eq_self _ [] (removeDuplicates_nodup xs) ?_
  intro a _ h
  exact absurd h (List.not_mem_nil a)

theorem removeDuplicates_cons (x : String) (xs : List String) :
    removeDuplicatesFromSlice (x :: xs)
      = x :: removeDuplicatesFromSlice (xs.filter (· != x)) := by
  rw [removeDuplicatesFromSlice, dedupLoop, if_neg (List.not_mem_nil x)]
  rw [dedupLoop_cons_seen xs [] x]
  rfl

/-- C5: removeDuplicatesFromSlice is stable first-occurrence deduplication by
exact string equality and it is idempotent.  The conjuncts give the concrete
example from the spec, idempotence, order preservation (the output is a
sublist of the input), absence of duplicates, membership preservation, and
the first-occurrence recurrence (the head is kept and every later equal
element is dropped). -/
theorem removeDuplicatesFromSlice_stable_first_occurrence_idempotent :
    removeDuplicatesFromSlice ["a", "b", "a", "c"] = ["a", "b", "c"]
    ∧ (∀ xs, removeDuplicatesFromSlice (removeDuplicatesFromSlice xs)
        = removeDuplicatesFromSlice xs)
    ∧ (∀ xs, (removeDuplicatesFromSlice xs).Sublist xs)
    ∧ (∀ xs, (removeDuplicatesFromSlice xs).Nodup)
    ∧ (∀ x xs, x ∈ removeDuplicatesFromSlice xs ↔ x ∈ xs)
    ∧ (∀ x xs, removeDuplicatesFromSlice (x :: xs)
        = x :: removeDuplicatesFromSlice (xs.filter (· != x))) := by
  refine ⟨by decide, removeDuplicates_idem, removeDuplicates_sublist,
    removeDuplicates_nodup, removeDuplicates_mem, removeDuplicates_cons⟩

/-! ### String helpers mirroring the Go strings package

Go strings.Contains, strings.HasSuffix and the ASCII fragment of
strings.ToLower, written over character lists so every use reduces in the
kernel.  All inputs appearing in this development are ASCII, where the
fragment agrees with Go exactly. -/

/-- Decides whether the second character list is a prefix of the first. -/
def charsStartWith : List Char → List Char → Bool
  | _, [] => true
  | [], _ :: _ => false
  | a :: as, b :: bs => a = b && charsStartWith as bs

/-- Decides whether the second character list occurs contiguously inside the
first. -/
def charsContain : List Char → List Char → Bool
  | [], sub => sub.isEmpty
  | a :: as, sub => charsStartWith (a :: as) sub || charsContain as sub

/-- Go strings.Contains on the character lists of the two strings. -/
def goStringsContains (s sub : String) : Bool :=
  charsContain s.data sub.data

/-- ASCII lower-casing of one character, as Go strings.ToLower acts on the
ASCII range. -/
def asciiToLowerChar (c : Char) : Char :=
  if 65 ≤ c.toNat ∧ c.toNat ≤ 90 then Char.ofNat (c.toNat + 32) else c

/-- Go strings.ToLower restricted to its ASCII behaviour. -/
def goToLower (s : String) : String :=
  String.mk (s.data.map asciiToLowerChar)

/-- Go strings.HasSuffix: the second string is a suffix of the first. -/
def goHasSuffix (s suffix : String) : Bool :=
  charsStartWith s.data.reverse suffix.data.reverse

/-! ### Link extractor: extractDownloadLinks

The html tokenizer of golang.org/x/net/html is an external dependency; the
extraction logic of the repository consumes its token stream, so the
embedding operates on a list of tokens, each carrying the tag kind, the tag
name (Data) and the attribute list (Attr) exactly as the Go token does.  The
ErrorToken that terminates the Go loop is the end of the list. -/

/-- One attribute of a tag token: key and value. -/
structure Attr where
  key : String
  val : String
deriving DecidableEq

/-- Kind of a token, following the token types of the html package that the
Go switch distinguishes; all kinds other than start and self-closing tags
fall through the switch. -/
inductive TokenKind
  | startTag
  | selfClosingTag
  | endTag
  | text
  | comment
deriving DecidableEq

/-- Token of the markup tokenizer: kind, tag name, attributes. -/
structure Token where
  kind : TokenKind
  data : String
  attr : List Attr
deriving DecidableEq

/-- Body of the attribute loop of extractDownloadLinks: a class attribute
whose value contains the marker substring sets the flag, and an href
attribute overwrites the held href. -/
def anchorScanStep (st : String × Bool) (a : Attr) : String × Bool :=
  let st1 := if a.key == "class" && goStringsContains a.val "sds-downloadBtn"
    then (st.1, true) else st
  if a.key == "href" then (a.val, st1.2) else st1

/-- Attribute loop of extractDownloadLinks, starting from an empty href and a
cleared flag. -/
def scanAnchorAttrs (attrs : List Attr) : String × Bool :=
  attrs.foldl anchorScanStep ("", false)

/-- Links contributed by one token: a start or self-closing anchor tag emits
its held href when the marker flag is set and the lower-cased href ends in
the target extension; every other token emits nothing. -/
def anchorEmits (t : Token) : List String :=
  match t.kind with
  | TokenKind.startTag | TokenKind.selfClosingTag =>
    if t.data == "a" then
      let st := scanAnchorAttrs t.attr
      if st.2 && goHasSuffix (goToLower st.1) ".pdf" then [st.1] else []
    else []
  | _ => []

/-- Go extractDownloadLinks over the token stream: concatenate the emissions
of the tokens in order. -/
def extractDownloadLinks : List Token → List String
  | [] => []
  | t :: ts => anchorEmits t ++ extractDownloadLinks ts

/-- Last href attribute value of the list, or the empty string. -/
def findHref (attrs : List Attr) : String :=
  attrs.foldl (fun h a => if a.key == "href" then a.val else h) ""

/-- Some class attribute value contains the marker substring. -/
def hasDownloadBtnClass (attrs : List Attr) : Bool :=
  attrs.any (fun a => a.key == "class" && goStringsContains a.val "sds-downloadBtn")

theorem anchorScanStep_eq (st : String × Bool) (a : Attr) :
    anchorScanStep st a
      = (if a.key == "href" then a.val else st.1,
         st.2 || (a.key == "class" && goStringsContains a.val "sds-downloadBtn")) := by
  rcases st with ⟨h, b⟩
  rw [anchorScanStep]
  by_cases hc : (a.key == "class" && goStringsContains a.val "sds-downloadBtn") = true
  <;> by_cases hh : (a.key == "href") = true
  <;> simp [hc, hh]

theorem scanAnchorAttrs_loop (attrs : List Attr) :
    ∀ h b, attrs.foldl anchorScanStep (h, b)
      = (attrs.foldl (fun h a => if a.key == "href" then a.val else h) h,
         b || attrs.any (fun a => a.key == "class" && goStringsContains a.val "sds-downloadBtn")) := by
  induction attrs with
  | nil => intro h b; simp
  | cons a as ih =>
    intro h b
    rw [List.foldl_cons, anchorScanStep_eq, ih, List.foldl_cons, List.any_cons, Bool.or_assoc]

theorem scanAnchorAttrs_eq (attrs : List Attr) :
    scanAnchorAttrs attrs = (findHref attrs, hasDownloadBtnClass attrs) := by
  rw [scanAnchorAttrs, scanAnchorAttrs_loop]
  rfl

theorem anchorEmits_startTag (attrs : List Attr) :
    anchorEmits (Token.mk TokenKind.startTag "a" attrs)
      = (if hasDownloadBtnClass attrs
            && goHasSuffix (goToLower (findHref attrs)) ".pdf"
         then [findHref attrs] else []) := by
  rw [anchorEmits]
  simp only [scanAnchorAttrs_eq]
  rfl

theorem extractDownloadLinks_append (ts us : List Token) :
    extractDownloadLinks (ts ++ us)
      = extractDownloadLinks ts ++ extractDownloadLinks us := by
  induction ts with
  | nil => rfl
  | cons t ts ih => simp [extractDownloadLinks, ih]

theorem extractDownloadLinks_cons (t : Token) (ts : List Token) :
    extractDownloadLinks (t :: ts) = anchorEmits t ++ extractDownloadLinks ts := rfl

/-- Modelled from the spec: a LinkURL "must be syntactically an absolute URL".
An absolute URL carries a scheme, separated from the authority by the three
characters of the scheme separator; a relative reference has no such
separator. -/
def isAbsoluteURL (s : String) : Bool :=
  goStringsContains s "://"

/-- Helper: a list containing two distinct elements has length at least two. -/
theorem two_mem_le_length (l : List String) (a b : String)
    (ha : a ∈ l) (hb : b ∈ l) (hne : a ≠ b) : 2 ≤ l.length := by
  match l with
  | [] => cases ha
  | [x] =>
    have ha1 : a = x := by simpa using ha
    have hb1 : b = x := by simpa using hb
    exact absurd (ha1.trans hb1.symm) hne
  | x :: y :: t =>
    simp only [List.length_cons]
    omega

/-- C10: the strict extractor treats an anchor as a download button exactly
when some class attribute value contains the marker as a substring, and emits
the anchor href exactly when that holds and the lower-cased href ends in the
target extension.  The first conjunct characterizes the emission of an anchor
token placed in any token context through the embedded substring and suffix
tests; the second shows a class value carrying the marker only as an inner
substring, not as a whitespace-delimited token, still qualifies, with a
mixed-case extension accepted. -/
theorem extractDownloadLinks_marker_substring_iff :
    (∀ pre post attrs,
      extractDownloadLinks (pre ++ Token.mk TokenKind.startTag "a" attrs :: post)
        = extractDownloadLinks pre
          ++ (if hasDownloadBtnClass attrs
                && goHasSuffix (goToLower (findHref attrs)) ".pdf"
              then [findHref attrs] else [])
          ++ extractDownloadLinks post)
    ∧ extractDownloadLinks
        [Token.mk TokenKind.startTag "a"
          [Attr.mk "class" "xsds-downloadBtny", Attr.mk "href" "https://x/y.PDF"]]
        = ["https://x/y.PDF"] := by
  constructor
  · intro pre post attrs
    rw [extractDownloadLinks_append, extractDownloadLinks_cons, anchorEmits_startTag,
      List.append_assoc]
  · decide

/-- C6 counterexample: an anchor carrying the marker class whose href is a
relative URL ending in the target extension is returned by the extractor, not
dropped, although the href is not an absolute URL. -/
theorem extractDownloadLinks_returns_relative_href :
    extractDownloadLinks
        [Token.mk TokenKind.startTag "a"
          [Attr.mk "class" "sds-downloadBtn", Attr.mk "href" "files/report.pdf"]]
      = ["files/report.pdf"]
    ∧ isAbsoluteURL "files/report.pdf" = false := by
  decide

/-- C6 amended: the extractor performs no absoluteness check at all; any
anchor whose attributes pass the marker-class and extension tests has its
href returned verbatim, whether absolute or relative (relative hrefs are
neither dropped nor resolved). -/
theorem extractDownloadLinks_no_absoluteness_check (attrs : List Attr)
    (hbtn : hasDownloadBtnClass attrs = true)
    (hpdf : goHasSuffix (goToLower (findHref attrs)) ".pdf" = true) :
    extractDownloadLinks [Token.mk TokenKind.startTag "a" attrs] = [findHref attrs] := by
  rw [extractDownloadLinks_cons, anchorEmits_startTag, hbtn, hpdf]
  rfl

/-- Witness for the amended C6 at a concrete relative href. -/
theorem extractDownloadLinks_no_absoluteness_check_witness :
    hasDownloadBtnClass
        [Attr.mk "class" "sds-downloadBtn", Attr.mk "href" "docs/sheet.pdf"] = true
    ∧ goHasSuffix (goToLower (findHref
        [Attr.mk "class" "sds-downloadBtn", Attr.mk "href" "docs/sheet.pdf"])) ".pdf" = true
    ∧ extractDownloadLinks
        [Token.mk TokenKind.startTag "a"
          [Attr.mk "class" "sds-downloadBtn", Attr.mk "href" "docs/sheet.pdf"]]
        = [findHref [Attr.mk "class" "sds-downloadBtn", Attr.mk "href" "docs/sheet.pdf"]] :=
  ⟨by decide, by decide,
    extractDownloadLinks_no_absoluteness_check _ (by decide) (by decide)⟩

/-- C4 counterexample: two extracted links that differ only in letter case do
not collapse; the deduplicated output of the pipeline stage keeps both.  The
two hrefs agree after lower-casing yet are distinct, and the deduplicated
list has both entries rather than one. -/
theorem caseVariantLinks_not_collapsed :
    removeDuplicatesFromSlice (extractDownloadLinks
        [Token.mk TokenKind.startTag "a"
          [Attr.mk "class" "sds-downloadBtn", Attr.mk "href" "https://x/a.pdf"],
         Token.mk TokenKind.startTag "a"
          [Attr.mk "class" "sds-downloadBtn", Attr.mk "href" "https://x/A.PDF"]])
      = ["https://x/a.pdf", "https://x/A.PDF"]
    ∧ goToLower "https://x/a.pdf" = goToLower "https://x/A.PDF"
    ∧ "https://x/a.pdf" ≠ "https://x/A.PDF" := by
  decide

/-- C4 amended: no case normalization is applied before deduplication; the
dedup filter compares by exact string equality, so two links that differ only
in letter case (equal after lower-casing, distinct as strings) both survive
deduplication and the output keeps at least two entries. -/
theorem dedup_keeps_case_variants (xs : List String) (a b : String)
    (ha : a ∈ xs) (hb : b ∈ xs)
    (hcase : goToLower a = goToLower b) (hne : a ≠ b) :
    a ∈ removeDuplicatesFromSlice xs ∧ b ∈ removeDuplicatesFromSlice xs
    ∧ 2 ≤ (removeDuplicatesFromSlice xs).length := by
  have ha2 : a ∈ removeDuplicatesFromSlice xs := (removeDuplicates_mem a xs).mpr ha
  have hb2 : b ∈ removeDuplicatesFromSlice xs := (removeDuplicates_mem b xs).mpr hb
  exact ⟨ha2, hb2, two_mem_le_length _ a b ha2 hb2 hne⟩

/-- Witness for the amended C4 at the two concrete case-variant links. -/
theorem dedup_keeps_case_variants_witness :
    ("https://x/a.pdf" ∈ ["https://x/a.pdf", "https://x/A.PDF"]
      ∧ "https://x/A.PDF" ∈ ["https://x/a.pdf", "https://x/A.PDF"]
      ∧ goToLower "https://x/a.pdf" = goToLower "https://x/A.PDF"
      ∧ "https://x/a.pdf" ≠ "https://x/A.PDF")
    ∧ 2 ≤ (removeDuplicatesFromSlice ["https://x/a.pdf", "https://x/A.PDF"]).length :=
  ⟨⟨by decide, by decide, by decide, by decide⟩,
    (dedup_keeps_case_variants ["https://x/a.pdf", "https://x/A.PDF"]
      "https://x/a.pdf" "https://x/A.PDF"
      (by decide) (by decide) (by decide) (by decide)).2.2⟩

/-! ### Pagination orchestrator: scrapeContentAndSaveToFile

The orchestrator fixes totalSDSDocuments and documentsPerPage, computes the
page count by the rounding-up integer division, and launches one goroutine
per page index, each computing its offset as index times page size. -/

/-- Total number of SDS documents expected, from the source. -/
def totalSDSDocuments : Nat := 12700

/-- Documents shown per search result page, from the source. -/
def documentsPerPage : Nat := 10

/-- Capacity of the buffered semaphore channel, from the source. -/
def concurrentRequestsLimit : Nat := 50

/-- Page count of scrapeContentAndSaveToFile: the rounding-up division
written in the source as (totalItems + pageSize - 1) / pageSize. -/
def totalPagesFor (totalItems pageSize : Nat) : Nat :=
  (totalItems + pageSize - 1) / pageSize

/-- Offset computed inside the goroutine launched for one page index. -/
def pageOffset (pageIndex pageSize : Nat) : Nat :=
  pageIndex * pageSize

/-- Offsets of the fetch tasks launched by the loop over the page indices
from zero to the page count, in launch order. -/
def launchedOffsets (totalItems pageSize : Nat) : List Nat :=
  (List.range (totalPagesFor totalItems pageSize)).map (fun i => pageOffset i pageSize)

/-- C1: for positive totalItems and pageSize the orchestrator computes the
ceiling of totalItems over pageSize, launches exactly that many fetch tasks,
the task for page index i requesting offset i times pageSize, and the issued
offsets are pairwise distinct. -/
theorem pagination_ceil_offsets_distinct (totalItems pageSize : Nat)
    (ht : 0 < totalItems) (hp : 0 < pageSize) :
    totalPagesFor totalItems pageSize = totalItems ⌈/⌉ pageSize
    ∧ (launchedOffsets totalItems pageSize).length = totalPagesFor totalItems pageSize
    ∧ (∀ i (hi : i < (launchedOffsets totalItems pageSize).length),
        (launchedOffsets totalItems pageSize).get ⟨i, hi⟩ = i * pageSize)
    ∧ (launchedOffsets totalItems pageSize).Nodup := by
  refine ⟨(Nat.ceilDiv_eq_add_pred_div totalItems pageSize).symm, ?_, ?_, ?_⟩
  · simp [launchedOffsets]
  · intro i hi
    simp [launchedOffsets, pageOffset]
  · refine List.Nodup.map ?_ (List.nodup_range _)
    intro a b hab
    exact Nat.eq_of_mul_eq_mul_right hp hab

/-- Witness for C1 at the concrete totals of the source. -/
theorem pagination_ceil_offsets_distinct_witness :
    0 < totalSDSDocuments ∧ 0 < documentsPerPage
    ∧ (launchedOffsets totalSDSDocuments documentsPerPage).Nodup :=
  ⟨by decide, by decide,
    (pagination_ceil_offsets_distinct totalSDSDocuments documentsPerPage
      (by decide) (by decide)).2.2.2⟩

/-! ### Derived file names: getFileNamesFromURLs

The function parses the URL, takes the last segment of the path, strips the
characters matched by the sanitizing regular expression, replaces spaces by
underscores and lower-cases the result; a parse failure yields the empty
string.  The parsing of net/url is external to the repository; its path
extraction is modelled for the URL shapes processed here (no percent-escaped
sequences): parsing fails exactly on ASCII control characters, and the path
is the part from the first slash after the scheme separator, fragment and
query cut off, or the whole reference when no scheme separator occurs. -/

/-- Character class of the sanitizing regular expression: the nine listed
file name characters together with the control range up to 0x1F. -/
def isIllegalFileNameChar (c : Char) : Bool :=
  c = '<' || c = '>' || c = ':' || c = '"' || c = '/' || c = '\\' || c = '|'
    || c = '?' || c = '*' || c.toNat ≤ 0x1F

/-- Trailing slashes removed, as the first phase of path.Base. -/
def dropTrailingSlashes (l : List Char) : List Char :=
  (l.reverse.dropWhile (fun c => c = '/')).reverse

/-- Segment after the last slash, as the second phase of path.Base. -/
def afterLastSlash (l : List Char) : List Char :=
  (l.reverse.takeWhile (fun c => c ≠ '/')).reverse

/-- Go path.Base: the last element of the path; a dot for the empty path and
a slash for a path of only slashes. -/
def pathBase (p : String) : String :=
  if p.data = [] then "."
  else
    let t := dropTrailingSlashes p.data
    let b := afterLastSlash t
    if b = [] then "/" else String.mk b

/-- ASCII control characters on which url.Parse fails. -/
def isURLControlChar (c : Char) : Bool :=
  c.toNat < 0x20 || c.toNat = 0x7F

/-- Rest of the list after the first occurrence of the marker, if any. -/
def afterFirstMarker (marker : List Char) : List Char → Option (List Char)
  | [] => if marker.isEmpty then some [] else none
  | a :: t =>
    if charsStartWith (a :: t) marker then some ((a :: t).drop marker.length)
    else afterFirstMarker marker t

/-- Modelled from the source use of net/url, restricted as described above:
the path component that url.Parse exposes as Path, or none on a parse
failure. -/
def goURLParsePath (rawURL : String) : Option String :=
  if rawURL.data.any isURLControlChar then none
  else
    let noFrag := rawURL.data.takeWhile (fun c => c ≠ '#')
    let noQuery := noFrag.takeWhile (fun c => c ≠ '?')
    match afterFirstMarker "://".data noQuery with
    | some rest => some (String.mk (rest.dropWhile (fun c => c ≠ '/')))
    | none => some (String.mk noQuery)

/-- Sanitization of getFileNamesFromURLs: strip the illegal characters,
replace each space by an underscore, lower-case. -/
def sanitizeFileName (base : String) : String :=
  String.mk (((base.data.filter (fun c => !isIllegalFileNameChar c)).map
    (fun c => if c = ' ' then '_' else c)).map asciiToLowerChar)

/-- Go getFileNamesFromURLs: parse, take the base of the path, sanitize; the
empty string on parse failure. -/
def getFileNamesFromURLs (rawURL : String) : String :=
  match goURLParsePath rawURL with
  | none => ""
  | some p => sanitizeFileName (pathBase p)

/-- C7: the derived file name of the spec example keeps the parentheses,
replaces the spaces by underscores and lower-cases the last path segment. -/
theorem getFileNames_spec_example :
    getFileNamesFromURLs "https://x.com/docs/My File (v2).pdf" = "my_file_(v2).pdf" := by
  decide

/-- C8 counterexample: the URL with a root path is an absolute URL whose
derived file name is empty, because path.Base yields the slash and the
sanitizer strips it. -/
theorem getFileNames_empty_on_root_path :
    getFileNamesFromURLs "https://x.com/" = "" ∧ isAbsoluteURL "https://x.com/" = true := by
  decide

/-- C8 amended: the derived file name can be empty (parse failure, or a last
path segment consisting only of illegal characters, as for the root path);
whenever the URL parses and the base of its path contains at least one
character outside the illegal class, the derived file name is non-empty. -/
theorem getFileNames_nonempty_of_legal_char (rawURL p : String)
    (hp : goURLParsePath rawURL = some p)
    (hc : ∃ c ∈ (pathBase p).data, isIllegalFileNameChar c = false) :
    getFileNamesFromURLs rawURL ≠ "" := by
  rw [getFileNamesFromURLs, hp]
  show sanitizeFileName (pathBase p) ≠ ""
  intro hcon
  obtain ⟨c, hcm, hcl⟩ := hc
  have hmemf : c ∈ (pathBase p).data.filter (fun c => !isIllegalFileNameChar c) :=
    List.mem_filter.mpr ⟨hcm, by simp [hcl]⟩
  have hne : (pathBase p).data.filter (fun c => !isIllegalFileNameChar c) ≠ [] := by
    intro h
    rw [h] at hmemf
    cases hmemf
  have hdata : (sanitizeFileName (pathBase p)).data = [] := by
    rw [hcon]
  rw [sanitizeFileName] at hdata
  simp only [List.map_eq_nil_iff] at hdata
  exact hne hdata

/-- Witness for the amended C8 at a concrete document URL. -/
theorem getFileNames_nonempty_of_legal_char_witness :
    goURLParsePath "https://x.com/docs/report.pdf" = some "/docs/report.pdf"
    ∧ (∃ c ∈ (pathBase "/docs/report.pdf").data, isIllegalFileNameChar c = false)
    ∧ getFileNamesFromURLs "https://x.com/docs/report.pdf" ≠ "" :=
  ⟨by decide, ⟨'r', by decide, by decide⟩,
    getFileNames_nonempty_of_legal_char "https://x.com/docs/report.pdf" "/docs/report.pdf"
      (by decide) ⟨'r', by decide, by decide⟩⟩

/-! ### Artifact store: downloadPDF

Filesystem and network effects are explicit: the filesystem is the list of
paths at which a file exists, and the outcome of the fallible operations of
one call (the GET returning status 200, the file creation, the body copy) is
an oracle.  A deferred directory creation failure is only logged by the
source and never fails the call, so it has no branch.  The number of network
fetches the call issues is returned alongside the result. -/

/-- Go path.Join for the two-argument case with no dot segments. -/
def pathJoin (dir file : String) : String :=
  if dir.data = [] then file
  else if file.data = [] then dir
  else String.mk (dir.data ++ '/' :: file.data)

/-- Go fileExists: a regular file exists at the path. -/
def fileExists (files : List String) (filename : String) : Bool :=
  decide (filename ∈ files)

/-- Oracle for the fallible operations of one downloadPDF call. -/
structure IOEnv where
  fetchOK : Bool
  createOK : Bool
  copyOK : Bool
deriving DecidableEq

/-- Return value of downloadPDF: nil or a wrapped error. -/
inductive SaveResult
  | ok
  | error (msg : String)
deriving DecidableEq

/-- Result of a downloadPDF call: the returned error or nil, the filesystem
after the call, and the number of network fetches issued. -/
structure DownloadOutcome where
  result : SaveResult
  files : List String
  fetches : Nat
deriving DecidableEq

/-- Go downloadPDF: derive the file name, join it with the folder, and skip
with success when a file already exists at that path; otherwise issue the
GET (one network fetch), fail on a transport or status error, fail if the
file creation fails, and copy the body into the created file (the created
file persists even when the copy fails, since os.Create precedes io.Copy). -/
def downloadPDF (env : IOEnv) (pdfURL folder : String) (files : List String) :
    DownloadOutcome :=
  let fileName := getFileNamesFromURLs pdfURL
  let fullPath := pathJoin folder fileName
  if fileExists files fullPath then
    { result := SaveResult.ok, files := files, fetches := 0 }
  else if !env.fetchOK then
    { result := SaveResult.error "status code error", files := files, fetches := 1 }
  else if !env.createOK then
    { result := SaveResult.error "error creating file", files := files, fetches := 1 }
  else if !env.copyOK then
    { result := SaveResult.error "error saving PDF", files := fullPath :: files, fetches := 1 }
  else
    { result := SaveResult.ok, files := fullPath :: files, fetches := 1 }

theorem downloadPDF_skip (env : IOEnv) (pdfURL folder : String) (files : List String)
    (h1 : fileExists files (pathJoin folder (getFileNamesFromURLs pdfURL)) = true) :
    downloadPDF env pdfURL folder files
      = { result := SaveResult.ok, files := files, fetches := 0 } := by
  simp [downloadPDF, h1]

theorem downloadPDF_success_has_file (env : IOEnv) (pdfURL folder : String)
    (files : List String)
    (h : (downloadPDF env pdfURL folder files).result = SaveResult.ok) :
    fileExists (downloadPDF env pdfURL folder files).files
      (pathJoin folder (getFileNamesFromURLs pdfURL)) = true := by
  rcases env with ⟨f, c, p⟩
  by_cases h1 : fileExists files (pathJoin folder (getFileNamesFromURLs pdfURL)) = true
  · rw [downloadPDF_skip _ _ _ _ h1]
    exact h1
  · have h1b : ¬(pathJoin folder (getFileNamesFromURLs pdfURL) ∈ files) := by
      simpa [fileExists] using h1
    cases f <;> cases c <;> cases p <;>
      simp [downloadPDF, fileExists, h1b] at h ⊢

/-- C2 counterexample: when a file already exists at the derived path before
the first call, two consecutive calls both succeed while issuing zero
network fetches in total, not exactly one. -/
theorem downloadPDF_preexisting_zero_total_fetches :
    (downloadPDF (IOEnv.mk true true true) "https://x.com/docs/report.pdf" "PDFs"
        [pathJoin "PDFs" (getFileNamesFromURLs "https://x.com/docs/report.pdf")]).result
      = SaveResult.ok
    ∧ (downloadPDF (IOEnv.mk true true true) "https://x.com/docs/report.pdf" "PDFs"
        (downloadPDF (IOEnv.mk true true true) "https://x.com/docs/report.pdf" "PDFs"
          [pathJoin "PDFs" (getFileNamesFromURLs "https://x.com/docs/report.pdf")]).files).result
      = SaveResult.ok
    ∧ (downloadPDF (IOEnv.mk true true true) "https://x.com/docs/report.pdf" "PDFs"
        [pathJoin "PDFs" (getFileNamesFromURLs "https://x.com/docs/report.pdf")]).fetches
      + (downloadPDF (IOEnv.mk true true true) "https://x.com/docs/report.pdf" "PDFs"
        (downloadPDF (IOEnv.mk true true true) "https://x.com/docs/report.pdf" "PDFs"
          [pathJoin "PDFs" (getFileNamesFromURLs "https://x.com/docs/report.pdf")]).files).fetches
      = 0 := by
  decide

/-- C2 amended: the existence check makes downloadPDF an idempotent skip: a
call finding a file at the derived path returns success at once with zero
fetches and an unchanged filesystem, and after any successful call a repeat
call with the same url and folder succeeds with zero further fetches under
any network conditions, so the two calls together fetch at most once
(exactly once when no file existed at the path before the first call, zero
times when one did). -/
theorem downloadPDF_idempotent_skip :
    (∀ env pdfURL folder files,
      fileExists files (pathJoin folder (getFileNamesFromURLs pdfURL)) = true →
        downloadPDF env pdfURL folder files
          = { result := SaveResult.ok, files := files, fetches := 0 })
    ∧ (∀ env env2 pdfURL folder files,
        (downloadPDF env pdfURL folder files).result = SaveResult.ok →
          (downloadPDF env2 pdfURL folder
              (downloadPDF env pdfURL folder files).files).result = SaveResult.ok
          ∧ (downloadPDF env2 pdfURL folder
              (downloadPDF env pdfURL folder files).files).fetches = 0
          ∧ (downloadPDF env pdfURL folder files).fetches
              + (downloadPDF env2 pdfURL folder
                  (downloadPDF env pdfURL folder files).files).fetches
            = (if fileExists files (pathJoin folder (getFileNamesFromURLs pdfURL))
               then 0 else 1)) := by
  constructor
  · exact downloadPDF_skip
  · intro env env2 pdfURL folder files h1
    have hfile := downloadPDF_success_has_file env pdfURL folder files h1
    have hskip := downloadPDF_skip env2 pdfURL folder
      (downloadPDF env pdfURL folder files).files hfile
    refine ⟨by rw [hskip], by rw [hskip], ?_⟩
    rw [hskip]
    by_cases h2 : fileExists files (pathJoin folder (getFileNamesFromURLs pdfURL)) = true
    · rw [downloadPDF_skip env pdfURL folder files h2] at h1 ⊢
      simp [h2]
    · have h2b : ¬(pathJoin folder (getFileNamesFromURLs pdfURL) ∈ files) := by
        simpa [fileExists] using h2
      have h2c : fileExists files (pathJoin folder (getFileNamesFromURLs pdfURL)) = false := by
        simpa [fileExists] using h2b
      rcases env with ⟨f, c, p⟩
      cases f <;> cases c <;> cases p <;>
        simp [downloadPDF, fileExists, h2b, h2c] at h1 ⊢

/-- Witness for the amended C2: from an empty filesystem a successful first
call fetches once and the repeat call fetches zero times. -/
theorem downloadPDF_idempotent_skip_witness :
    ((downloadPDF (IOEnv.mk true true true) "https://x.com/docs/report.pdf" "PDFs" []).result
        = SaveResult.ok)
    ∧ ((downloadPDF (IOEnv.mk false false false) "https://x.com/docs/report.pdf" "PDFs"
          (downloadPDF (IOEnv.mk true true true) "https://x.com/docs/report.pdf" "PDFs"
            []).files).result = SaveResult.ok
        ∧ (downloadPDF (IOEnv.mk false false false) "https://x.com/docs/report.pdf" "PDFs"
            (downloadPDF (IOEnv.mk true true true) "https://x.com/docs/report.pdf" "PDFs"
              []).files).fetches = 0
        ∧ (downloadPDF (IOEnv.mk true true true) "https://x.com/docs/report.pdf" "PDFs"
              []).fetches
            + (downloadPDF (IOEnv.mk false false false) "https://x.com/docs/report.pdf" "PDFs"
                (downloadPDF (IOEnv.mk true true true) "https://x.com/docs/report.pdf" "PDFs"
                  []).files).fetches
          = (if fileExists []
                (pathJoin "PDFs" (getFileNamesFromURLs "https://x.com/docs/report.pdf"))
             then 0 else 1)) :=
  ⟨by decide,
    downloadPDF_idempotent_skip.2 (IOEnv.mk true true true) (IOEnv.mk false false false)
      "https://x.com/docs/report.pdf" "PDFs" [] (by decide)⟩

/-! ### Download orchestrator: the per-link loop of main

After extraction and deduplication, main iterates over the links; each
iteration invokes downloadPDF (an error is logged and the loop continues)
and then appends the link followed by a newline to the links ledger file,
with no condition: the ledger is never read and never consulted. -/

/-- Go appendByteToFile on the modelled contents of the target file: the
data goes at the end. -/
def appendByteToFile (fileContents data : String) : String :=
  String.mk (fileContents.data ++ data.data)

/-- State threaded through the loop of main: the filesystem and the ledger
file contents. -/
structure RunState where
  files : List String
  ledger : String
deriving DecidableEq

/-- One iteration of the loop of main over a deduplicated link. -/
def processLink (env : IOEnv) (folder : String) (st : RunState) (link : String) :
    RunState :=
  let o := downloadPDF env link folder st.files
  { files := o.files,
    ledger := appendByteToFile st.ledger (String.mk (link.data ++ ['\n'])) }

/-- Download phase of main over a token stream: extract the links, remove
duplicates, and run the loop with the PDFs folder of the source. -/
def mainDownloadPhase (env : IOEnv) (tokens : List Token) (st : RunState) : RunState :=
  (removeDuplicatesFromSlice (extractDownloadLinks tokens)).foldl (processLink env "PDFs") st

/-- Ledger text contributed by a list of links: each link followed by a
newline, in order. -/
def ledgerLines : List String → List Char
  | [] => []
  | l :: ls => l.data ++ '\n' :: ledgerLines ls

theorem processLink_ledger_fold (env : IOEnv) (links : List String) :
    ∀ st : RunState, (links.foldl (processLink env "PDFs") st).ledger
      = String.mk (st.ledger.data ++ ledgerLines links) := by
  induction links with
  | nil =>
    intro st
    rcases st with ⟨fs, ⟨ld⟩⟩
    simp [ledgerLines]
  | cons l ls ih =>
    intro st
    rw [List.foldl_cons, ih]
    simp [processLink, appendByteToFile, ledgerLines]

/-- C3 counterexample: a deduplicated link whose case-normalized form is
already contained in the ledger text present at the start of the run is
appended to the ledger again. -/
theorem ledger_append_despite_containment :
    goStringsContains "https://x/a.pdf\n" (goToLower "https://x/a.pdf") = true
    ∧ (mainDownloadPhase (IOEnv.mk true true true)
        [Token.mk TokenKind.startTag "a"
          [Attr.mk "class" "sds-downloadBtn", Attr.mk "href" "https://x/a.pdf"]]
        (RunState.mk [] "https://x/a.pdf\n")).ledger
      = "https://x/a.pdf\nhttps://x/a.pdf\n" := by
  decide

/-- C3 amended: the loop of main appends every deduplicated link, followed
by a newline, to the ledger file unconditionally; it never reads the ledger,
so the final ledger contents are the initial contents followed by every
deduplicated link regardless of what the ledger already contained. -/
theorem mainDownloadPhase_ledger_unconditional (env : IOEnv) (tokens : List Token)
    (st : RunState) :
    (mainDownloadPhase env tokens st).ledger
      = String.mk (st.ledger.data
          ++ ledgerLines (removeDuplicatesFromSlice (extractDownloadLinks tokens))) := by
  rw [mainDownloadPhase, processLink_ledger_fold]

/-! ### Concurrency of the pagination orchestrator

The goroutine fan-out of scrapeContentAndSaveToFile is given as a transition
system over the phases of the launched tasks.  A task is pending until its
send on the buffered semaphore channel succeeds, admitted between that send
and the deferred receive, and done afterwards; the deferred receive runs on
every exit path of the goroutine, so a task finishes, successfully or not,
by the same slot-releasing step.  The buffered channel of capacity k admits
a send exactly while fewer than k slots are held. -/

/-- Phase of one fetch task relative to the semaphore. -/
inductive Phase
  | pending
  | admitted
  | done
deriving DecidableEq

/-- Number of tasks currently past semaphore admission and before release. -/
def admittedCount (s : List Phase) : Nat :=
  s.countP (fun p => decide (p = Phase.admitted))

/-- Number of tasks that have finished and run their deferred Done. -/
def doneCount (s : List Phase) : Nat :=
  s.countP (fun p => decide (p = Phase.done))

/-- One scheduler step of the semaphore pattern with capacity k: a pending
task is admitted only while fewer than k slots are held; an admitted task
finishes with either outcome of its fetch, releasing its slot by the
deferred receive in both cases. -/
inductive PoolStep (k : Nat) : List Phase → List Phase → Prop
  | enter (l r : List Phase) :
      admittedCount (l ++ Phase.pending :: r) < k →
      PoolStep k (l ++ Phase.pending :: r) (l ++ Phase.admitted :: r)
  | finish (success : Bool) (l r : List Phase) :
      PoolStep k (l ++ Phase.admitted :: r) (l ++ Phase.done :: r)

/-- States reachable during a run with n launched tasks, all initially
pending. -/
def PoolReachable (k n : Nat) (s : List Phase) : Prop :=
  Relation.ReflTransGen (PoolStep k) (List.replicate n Phase.pending) s

/-- The WaitGroup barrier of the orchestrator: Wait returns exactly when the
counter, raised once per launched task and lowered by each deferred Done,
has dropped to zero, that is when every task is done. -/
def waitGroupReturns (s : List Phase) : Prop :=
  doneCount s = s.length

theorem poolStep_admitted_le (k : Nat) {s t : List Phase}
    (hstep : PoolStep k s t) (hs : admittedCount s ≤ k) : admittedCount t ≤ k := by
  cases hstep with
  | enter l r hlt =>
    simp [admittedCount, List.countP_append, List.countP_cons] at hlt ⊢
    omega
  | finish success l r =>
    simp [admittedCount, List.countP_append, List.countP_cons] at hs ⊢
    omega

theorem poolStep_length (k : Nat) {s t : List Phase} (hstep : PoolStep k s t) :
    t.length = s.length := by
  cases hstep with
  | enter l r hlt => simp
  | finish success l r => simp

theorem admittedCount_replicate_pending (n : Nat) :
    admittedCount (List.replicate n Phase.pending) = 0 := by
  rw [admittedCount, List.countP_eq_zero]
  intro a ha
  rw [List.eq_of_mem_replicate ha]
  decide

/-- C9: in every state reachable during a run of the pagination orchestrator
with semaphore capacity k and n launched tasks, at most k tasks are past
semaphore admission and before release; the task set stays the n launched
tasks, every finishing step releases its slot whether the fetch succeeded or
failed (the finish transition of the step relation covers both outcomes),
and the WaitGroup barrier lets the orchestrator return only once every
launched task is done. -/
theorem pool_capacity_respected (k n : Nat) (s : List Phase)
    (h : PoolReachable k n s) :
    admittedCount s ≤ k
    ∧ s.length = n
    ∧ (waitGroupReturns s → ∀ p ∈ s, p = Phase.done) := by
  refine ⟨?_, ?_, ?_⟩
  · induction h with
    | refl =>
      rw [admittedCount_replicate_pending]
      exact Nat.zero_le k
    | tail hmid hlast ih => exact poolStep_admitted_le _ hlast ih
  · induction h with
    | refl => simp
    | tail hmid hlast ih => rw [poolStep_length _ hlast, ih]
  · intro hret p hp
    have := List.countP_eq_length.mp hret p hp
    simpa using this

/-- Witness for C9: with capacity two and three tasks, the state after one
admission step is reachable and satisfies the bound and the barrier
property. -/
theorem pool_capacity_respected_witness :
    admittedCount [Phase.admitted, Phase.pending, Phase.pending] ≤ 2
    ∧ ([Phase.admitted, Phase.pending, Phase.pending] : List Phase).length = 3
    ∧ (waitGroupReturns [Phase.admitted, Phase.pending, Phase.pending] →
        ∀ p ∈ ([Phase.admitted, Phase.pending, Phase.pending] : List Phase),
          p = Phase.done) :=
  pool_capacity_respected 2 3 [Phase.admitted, Phase.pending, Phase.pending]
    (Relation.ReflTransGen.single
      (PoolStep.enter [] [Phase.pending, Phase.pending] (by decide)))

end EcolabScraper
